import Mathlib

/-!
Formal model of the che-server SCM authentication and URL-resolution
subsystem (TypeScript sources `src/services/OAuth1Service.ts`,
`src/services/UrlParsers.ts`, `src/routes/oauth1Routes.ts` and the OAuth
token routes).  JavaScript strings are modelled as Lean `String`s and all
character-level work happens on `String.data : List Char` so that every
definition is executable and kernel-reducible.  Unicode code points model
UTF-16 code units (they agree on the Basic Multilingual Plane, which covers
every string handled by the service).  Outbound HTTP exchanges are modelled
by passing the provider's response as an explicit argument.
-/

/-! Basic character-list utilities mirroring the JavaScript string methods
used by the sources (`split`, `indexOf`, `includes`, `startsWith`,
`endsWith`, `substring`). -/

abbrev Chars := List Char

/-- Split a character list at every occurrence of `sep`, mirroring
JavaScript `String.prototype.split` with a single-character separator
(`"".split(c)` gives `[""]`, separators at the ends give empty fields). -/
def splitOnChar (sep : Char) : Chars → List Chars
  | [] => [[]]
  | c :: rest =>
    let r := splitOnChar sep rest
    if c = sep then [] :: r
    else
      match r with
      | [] => [[c]]
      | h :: t => (c :: h) :: t

/-- Split at the first occurrence of `sep`, returning the parts before and
after it, or `none` when `sep` does not occur. -/
def breakOnFirst (sep : Char) : Chars → Option (Chars × Chars)
  | [] => none
  | c :: rest =>
    if c = sep then some ([], rest)
    else
      match breakOnFirst sep rest with
      | none => none
      | some (a, b) => some (c :: a, b)

/-- Index of the first occurrence of `needle` in the list, mirroring
JavaScript `String.prototype.indexOf` (which returns -1, modelled here as
`none`, when absent). -/
def indexOfSub (needle : Chars) : Chars → Option Nat
  | [] => if needle.isPrefixOf ([] : Chars) then some 0 else none
  | c :: t =>
    if needle.isPrefixOf (c :: t) then some 0
    else (indexOfSub needle t).map (· + 1)

/-- JavaScript `haystack.includes(pattern)` for string patterns. -/
def containsSub (s pat : String) : Bool := (indexOfSub pat.data s.data).isSome

/-- JavaScript `s.includes(c)` for a single-character pattern. -/
def containsChar (s : String) (c : Char) : Bool := s.data.contains c

/-- ASCII uppercase conversion, as applied by `toUpperCase()` to the ASCII
strings handled by the service. -/
def toUpperStr (s : String) : String := ⟨s.data.map Char.toUpper⟩

/-- ASCII lowercase conversion, as applied by `toLowerCase()`. -/
def toLowerStr (s : String) : String := ⟨s.data.map Char.toLower⟩

/-- JavaScript whitespace characters recognised by `String.prototype.trim`
(the ones relevant to HTTP bodies). -/
def isJsWhitespace (c : Char) : Bool := c ∈ [' ', '\t', '\n', '\r', '\x0b', '\x0c']

/-- Model of the source helper `isNonEmptyString`: the value is a string
whose `trim()` is non-empty, i.e. it has some non-whitespace character. -/
def isNonEmptyStr (s : String) : Bool := s.data.any (fun c => !(isJsWhitespace c))

/-! Percent-encoding.  `encodeURIComponent` leaves ASCII alphanumerics and
`-_.!~*'()` intact and encodes every other character as the uppercase-hex
percent-encoding of its UTF-8 bytes. -/

/-- Uppercase hexadecimal digit for a value below 16. -/
def hexUpperDigit (n : Nat) : Char :=
  ['0', '1', '2', '3', '4', '5', '6', '7', '8', '9', 'A', 'B', 'C', 'D', 'E', 'F'].getD n '0'

/-- Percent-encoding of one byte, uppercase hex. -/
def percentByte (b : Nat) : Chars := ['%', hexUpperDigit (b / 16), hexUpperDigit (b % 16)]

/-- UTF-8 bytes of a Unicode code point. -/
def utf8Bytes (c : Char) : List Nat :=
  let n := c.toNat
  if n < 0x80 then [n]
  else if n < 0x800 then [0xC0 + n / 0x40, 0x80 + n % 0x40]
  else if n < 0x10000 then [0xE0 + n / 0x1000, 0x80 + n / 0x40 % 0x40, 0x80 + n % 0x40]
  else [0xF0 + n / 0x40000, 0x80 + n / 0x1000 % 0x40, 0x80 + n / 0x40 % 0x40, 0x80 + n % 0x40]

/-- Percent-encoding of all UTF-8 bytes of one character. -/
def pctChars (c : Char) : Chars := ((utf8Bytes c).map percentByte).flatten

/-- ASCII letters and digits. -/
def isUriAlphaNum (c : Char) : Bool :=
  (65 ≤ c.toNat && c.toNat ≤ 90) || (97 ≤ c.toNat && c.toNat ≤ 122) || (48 ≤ c.toNat && c.toNat ≤ 57)

/-- Characters `encodeURIComponent` leaves unescaped besides alphanumerics. -/
def encodeURIComponentSafeMarks : Chars := ['-', '_', '.', '!', '~', '*', '\'', '(', ')']

def isEncodeURIComponentSafe (c : Char) : Bool :=
  isUriAlphaNum c || encodeURIComponentSafeMarks.contains c

def encodeURIComponentChars (l : Chars) : Chars :=
  (l.map (fun c => if isEncodeURIComponentSafe c then [c] else pctChars c)).flatten

/-- Model of JavaScript `encodeURIComponent`. -/
def encodeURIComponent (s : String) : String := ⟨encodeURIComponentChars s.data⟩

/-- The characters `/[!'()*]/g` additionally escaped by `percentEncode` in
`OAuth1Service.ts` (RFC 3986 strictness on top of `encodeURIComponent`). -/
def oauthExtraEscapes : Chars := ['!', '\'', '(', ')', '*']

def percentEncodeChars (l : Chars) : Chars :=
  ((encodeURIComponentChars l).map
    (fun c => if oauthExtraEscapes.contains c then percentByte c.toNat else [c])).flatten

/-- Model of `percentEncode` from `OAuth1Service.ts` (lines 37-43):
`encodeURIComponent` followed by escaping `!'()*` as uppercase hex. -/
def percentEncode (s : String) : String := ⟨percentEncodeChars s.data⟩

/-! Percent-decoding, used by `decodeURIComponent` and `URLSearchParams`
value decoding.  Escapes of ASCII bytes are decoded; a `%` not followed by
two hex digits is kept verbatim (as `URLSearchParams` does).  All strings
the service decodes are ASCII. -/

def isHexDigitChar (c : Char) : Bool :=
  (48 ≤ c.toNat && c.toNat ≤ 57) || (65 ≤ c.toNat && c.toNat ≤ 70) || (97 ≤ c.toNat && c.toNat ≤ 102)

def hexVal (c : Char) : Nat :=
  if 48 ≤ c.toNat && c.toNat ≤ 57 then c.toNat - 48
  else if 65 ≤ c.toNat && c.toNat ≤ 70 then c.toNat - 55
  else if 97 ≤ c.toNat && c.toNat ≤ 102 then c.toNat - 87
  else 0

def decodePercentChars : Chars → Chars
  | [] => []
  | '%' :: a :: b :: rest =>
    if isHexDigitChar a && isHexDigitChar b then
      Char.ofNat (hexVal a * 16 + hexVal b) :: decodePercentChars rest
    else '%' :: decodePercentChars (a :: b :: rest)
  | c :: rest => c :: decodePercentChars rest

/-- Form decoding as performed by `URLSearchParams`: `+` becomes a space,
then percent-escapes are decoded. -/
def formDecode (l : Chars) : Chars :=
  decodePercentChars (l.map (fun c => if c = '+' then ' ' else c))

/-! Association-list maps, mirroring the JavaScript `Map` / plain-object
operations used by the sources (insertion order preserved, `set` replaces
an existing binding in place, `get` returns the first binding). -/

def assocGet {α : Type} (m : List (String × α)) (k : String) : Option α :=
  (m.find? (fun p => p.1 == k)).map Prod.snd

def assocSet {α : Type} (m : List (String × α)) (k : String) (v : α) : List (String × α) :=
  if (m.find? (fun p => p.1 == k)).isSome then
    m.map (fun p => if p.1 == k then (k, v) else p)
  else m ++ [(k, v)]

def assocDelete {α : Type} (m : List (String × α)) (k : String) : List (String × α) :=
  m.filter (fun p => p.1 != k)

/-- Lookup with the empty-string default, mirroring `params[k]` for a key
known to be present and `parameters.get(k) ?? ''`. -/
def lookupD (params : List (String × String)) (k : String) : String :=
  ((params.find? (fun p => p.1 == k)).map Prod.snd).getD ""

/-! Model of the WHATWG `URL` parser for the absolute `http(s)` URLs the
service handles.  The model keeps the scheme, userinfo, lowercased host,
port, path and serialized query; fragments are dropped on parse (the
sources only ever clear them).  Characters of the query component are
percent-encoded with the WHATWG query encode set; path normalisation and
IDNA are out of scope (all URLs handled by the service have plain ASCII
hosts and paths). -/

structure SimpleUrl where
  scheme : String
  username : String
  host : String
  hostname : String
  port : String
  pathname : String
  search : String
deriving Repr, DecidableEq

/-- The `protocol` accessor of the WHATWG `URL` class. -/
def SimpleUrl.protocol (u : SimpleUrl) : String := u.scheme ++ ":"

/-- WHATWG query percent-encode set for special (http/https) URLs: C0
controls, space, `"`, `#`, `<`, `>`, `'` and non-ASCII. -/
def isQueryEncodeChar (c : Char) : Bool :=
  c.toNat < 0x20 || c.toNat > 0x7E || c ∈ [' ', '"', '#', '<', '>', '\'']

def encodeQueryChars (l : Chars) : Chars :=
  (l.map (fun c => if isQueryEncodeChar c then pctChars c else [c])).flatten

def isSchemeChar (c : Char) : Bool := isUriAlphaNum c || c ∈ ['+', '-', '.']

/-- WHATWG forbidden host code points (plus `%`, forbidden in domains). -/
def isForbiddenHostChar (c : Char) : Bool :=
  c ∈ ['\x00', '\t', '\n', '\r', ' ', '#', '/', ':', '<', '>', '?', '@', '[', '\\', ']', '^', '|', '%']

def parseUrl (s : String) : Option SimpleUrl :=
  match breakOnFirst ':' s.data with
  | none => none
  | some (schemeCs, afterColon) =>
    if ¬ (['/', '/'].isPrefixOf afterColon) then none
    else if schemeCs = [] ∨ ¬ schemeCs.all isSchemeChar then none
    else
      let rest := afterColon.drop 2
      let beforeHash := match breakOnFirst '#' rest with
        | some (a, _) => a
        | none => rest
      let (beforeQuery, queryOpt) := match breakOnFirst '?' beforeHash with
        | some (a, b) => (a, some b)
        | none => (beforeHash, none)
      let (authority, pathOpt) := match breakOnFirst '/' beforeQuery with
        | some (a, b) => (a, some b)
        | none => (beforeQuery, none)
      let (userinfo, hostport) := match breakOnFirst '@' authority with
        | some (u, h) => (u, h)
        | none => ([], authority)
      let (hostCs, portCs) := match breakOnFirst ':' hostport with
        | some (h, p) => (h, p)
        | none => (hostport, [])
      if hostCs = [] ∨ hostCs.any isForbiddenHostChar then none
      else if ¬ portCs.all Char.isDigit then none
      else
        let hostname := hostCs.map Char.toLower
        let host := if portCs = [] then hostname else hostname ++ ':' :: portCs
        let pathname : Chars := '/' :: (pathOpt.getD [])
        let search : Chars := match queryOpt with
          | none => []
          | some q => if q = [] then [] else '?' :: encodeQueryChars q
        some { scheme := ⟨schemeCs.map Char.toLower⟩, username := ⟨userinfo⟩,
               host := ⟨host⟩, hostname := ⟨hostname⟩, port := ⟨portCs⟩,
               pathname := ⟨pathname⟩, search := ⟨search⟩ }

/-- Serialization of a parsed URL after `url.search = ''` and
`url.hash = ''` (what `normalizeBaseUrl` in `OAuth1Service.ts` returns). -/
def SimpleUrl.toStringNoQuery (u : SimpleUrl) : String :=
  u.protocol ++ "//" ++ (if u.username = "" then "" else u.username ++ "@") ++ u.host ++ u.pathname

/-- Model of `normalizeBaseUrl` (`OAuth1Service.ts` lines 45-50): parse the
request URL, strip query and fragment, serialize.  `new URL` throwing on an
unparsable input is modelled by `none`. -/
def normalizeBaseUrl (requestUrl : String) : Option String :=
  (parseUrl requestUrl).map SimpleUrl.toStringNoQuery

/-! OAuth 1.0a parameter normalization and signature base string
(`OAuth1Service.ts` lines 52-67). -/

/-- Key order used by `Object.keys(params).sort()`: lexicographic over the
code units of the key. -/
def stringKeyLe (a b : String) : Prop := a.data ≤ b.data

instance : DecidableRel stringKeyLe := fun a b => inferInstanceAs (Decidable (a.data ≤ b.data))

instance : IsTotal String stringKeyLe := ⟨fun a b => le_total a.data b.data⟩

instance : IsTrans String stringKeyLe := ⟨fun _ _ _ h1 h2 => le_trans h1 h2⟩

instance : IsAntisymm String stringKeyLe :=
  ⟨fun a b h1 h2 => by cases a; cases b; exact congrArg String.mk (le_antisymm h1 h2)⟩

/-- Sorted keys of a parameter map: `Object.keys(params).sort()`. -/
def sortedKeys (params : List (String × String)) : List String :=
  (params.map Prod.fst).insertionSort stringKeyLe

/-- Model of `normalizeParameters`: sorted keys, each key and value
percent-encoded, joined with `&` (`OAuth1Service.ts` lines 52-57). -/
def normalizeParameters (params : List (String × String)) : String :=
  String.intercalate "&"
    ((sortedKeys params).map (fun k => percentEncode k ++ "=" ++ percentEncode (lookupD params k)))

/-- Model of `buildSignatureBaseString` (`OAuth1Service.ts` lines 59-67). -/
def buildSignatureBaseString (method requestUrl : String) (params : List (String × String)) :
    Option String :=
  (normalizeBaseUrl requestUrl).map
    (fun baseUrl =>
      toUpperStr method ++ "&" ++ percentEncode baseUrl ++ "&" ++ percentEncode (normalizeParameters params))

/-! Specification-side formulation of the base string, for the refinement
claim: the parameter pairs themselves sorted lexicographically by key,
each pair rendered `key=value` with both sides percent-encoded, joined by
`&`.  It is compared with the source-side `buildSignatureBaseString`. -/

def keyPairLe (a b : String × String) : Prop := a.1.data ≤ b.1.data

instance : DecidableRel keyPairLe := fun a b => inferInstanceAs (Decidable (a.1.data ≤ b.1.data))

instance : IsTotal (String × String) keyPairLe := ⟨fun a b => le_total a.1.data b.1.data⟩

instance : IsTrans (String × String) keyPairLe := ⟨fun _ _ _ h1 h2 => le_trans h1 h2⟩

def pairSortByKey (params : List (String × String)) : List (String × String) :=
  params.insertionSort keyPairLe

/-- Normalized parameters as the specification words them. -/
def specNormalizedParams (params : List (String × String)) : String :=
  String.intercalate "&"
    ((pairSortByKey params).map (fun p => percentEncode p.1 ++ "=" ++ percentEncode p.2))

/-- Signature base string as the specification words it. -/
def specSignatureBaseString (method requestUrl : String) (params : List (String × String)) :
    Option String :=
  (normalizeBaseUrl requestUrl).map
    (fun baseUrl =>
      toUpperStr method ++ "&" ++ percentEncode baseUrl ++ "&" ++ percentEncode (specNormalizedParams params))

/-! OAuth 1.0a wire formats (`OAuth1Service.ts` lines 69-86). -/

/-- Model of `parseQueryBody`: split the form-encoded body on `&`, then
each part on `=` (first field is the key, second the value, later fields
dropped), skip empty parts and empty keys, `decodeURIComponent` both sides
and store with last-one-wins object semantics. -/
def parseQueryBody (body : String) : List (String × String) :=
  (splitOnChar '&' body.data).foldl
    (fun out part =>
      if part = [] then out
      else
        let fields := splitOnChar '=' part
        let k := fields.headD []
        let v := (fields.drop 1).headD []
        if k = [] then out
        else assocSet out ⟨decodePercentChars k⟩ ⟨decodePercentChars v⟩)
    []

/-- Model of `oauthHeader`: `OAuth ` followed by the sorted
`key="percentEncodedValue"` pairs joined by `, `. -/
def oauthHeader (params : List (String × String)) : String :=
  "OAuth " ++ String.intercalate ", "
    ((sortedKeys params).map
      (fun k => percentEncode k ++ "=\"" ++ percentEncode (lookupD params k) ++ "\""))

/-! Redirect-repair codec (`OAuth1Service.ts` lines 88-114). -/

/-- The query component (without the leading `?`) of
`new URL(urlStr, 'http://dummy.local')`, i.e. everything after the first
`?` and before any `#`, serialized with the WHATWG query encode set. -/
def extractQuery (s : String) : Chars :=
  let beforeHash := match breakOnFirst '#' s.data with
    | some (a, _) => a
    | none => s.data
  match breakOnFirst '?' beforeHash with
  | some (_, q) => encodeQueryChars q
  | none => []

/-- Model of `encodeRedirectUrlLikeJava`: take the URL's query string as a
single chunk, find it verbatim in the original string, and replace from
there on with its `encodeURIComponent` encoding. -/
def encodeRedirectUrlLikeJava (urlStr : String) : String :=
  let query := extractQuery urlStr
  if query = [] then urlStr
  else
    match indexOfSub query urlStr.data with
    | none => urlStr
    | some idx => ⟨urlStr.data.take idx ++ encodeURIComponentChars query⟩

/-- Model of `getRedirectAfterLoginUrl`: repair the redirect target when it
contains a literal brace, then append `error_code=<kind>` with `&` or `?`
depending on whether a query is already present. -/
def getRedirectAfterLoginUrl (parameters : List (String × String)) (errorCode : Option String) :
    String :=
  let r0 := lookupD parameters "redirect_after_login"
  let r1 := if containsChar r0 '{' || containsChar r0 '}' then encodeRedirectUrlLikeJava r0 else r0
  match errorCode with
  | none => r1
  | some ec => r1 ++ (if containsChar r1 '?' then "&" else "?") ++ "error_code=" ++ ec

/-! The `URLSearchParams` view of a query string, used for the `state`
parameter of the OAuth 1.0a callback. -/

/-- Entries of `new URLSearchParams(s)` in order, duplicates preserved:
strip one leading `?`, split on `&`, drop empty segments, split each
segment at its first `=`, form-decode both sides. -/
def urlSearchParamsEntries (s : String) : List (String × String) :=
  let q := match s.data with
    | '?' :: rest => rest
    | l => l
  ((splitOnChar '&' q).filter (fun part => part ≠ [])).map
    (fun part =>
      match breakOnFirst '=' part with
      | some (a, b) => ((⟨formDecode a⟩ : String), (⟨formDecode b⟩ : String))
      | none => ((⟨formDecode part⟩ : String), ""))

/-- Model of `queryMapFromState` (`oauth1Routes.ts` lines 24-33): the
entries poured into a JavaScript `Map` (later duplicates win). -/
def queryMapFromState (state : String) : List (String × String) :=
  (urlSearchParamsEntries state).foldl (fun acc p => assocSet acc p.1 p.2) []

/-- The `at` (or any) query parameter of a parsed URL, as
`urlObj.searchParams.get(k)` returns it: the first entry for the key. -/
def searchParamsGet (u : SimpleUrl) (k : String) : Option String :=
  assocGet (urlSearchParamsEntries u.search) k

/-! The Bitbucket Server OAuth 1.0a authenticator
(`BitbucketServerOAuth1Authenticator` in `OAuth1Service.ts`).  Its two
process-wide maps are the mutable state; the provider's HTTP responses are
passed in explicitly. -/

structure OAuth1Credentials where
  token : String
  tokenSecret : Option String
deriving Repr, DecidableEq

structure AuthenticatorState where
  tempTokenSecrets : List (String × String)
  credentialsByUserId : List (String × OAuth1Credentials)
deriving Repr, DecidableEq

/-- Exception kinds thrown by the authenticator:
`UserDeniedOAuthAuthenticationException` is a subclass of
`OAuth1AuthenticationException`, so both kinds are authentication errors
and the route distinguishes them by instance checks. -/
inductive OAuth1Error where
  | authenticationError (msg : String)
  | userDenied (msg : String)
deriving Repr, DecidableEq

structure HttpResponse where
  status : Nat
  body : String
deriving Repr, DecidableEq

/-- Model of `BitbucketServerOAuth1Authenticator.callback`
(`OAuth1Service.ts` lines 256-321).  `oauthToken`/`oauthVerifier` are the
query parameters of the callback URL, `state` its `state` parameter, and
`resp` the provider's response to the access-token request (which the code
signs with the stored temporary secret for `oauthToken`, or with no secret
when none is stored — no local check rejects an unknown token).  On success
the recovered `userId` is returned, the access credential stored, and the
temporary secret deleted. -/
def callbackStep (st : AuthenticatorState) (oauthToken oauthVerifier : Option String)
    (state : String) (resp : HttpResponse) : Except OAuth1Error (String × AuthenticatorState) :=
  match oauthToken with
  | none => .error (.authenticationError "Missing oauth_token parameter")
  | some tok =>
    match oauthVerifier with
    | none => .error (.authenticationError "Missing oauth_verifier parameter")
    | some verifier =>
      if verifier = "denied" then .error (.userDenied "Authorization denied")
      else
        let stateParams := urlSearchParamsEntries state
        let userId := (assocGet stateParams "userId").getD ""
        if resp.status ≠ 200 ∨ isNonEmptyStr resp.body = false then
          .error (.authenticationError "Failed to get access token")
        else
          let parsed := parseQueryBody resp.body
          let accessToken := (assocGet parsed "oauth_token").getD ""
          if accessToken = "" then
            .error (.authenticationError "Missing oauth_token in access token response")
          else if isNonEmptyStr userId = false then
            .error (.authenticationError "Missing userId in state")
          else
            let accessSecret := assocGet parsed "oauth_token_secret"
            .ok (userId,
              { tempTokenSecrets := assocDelete st.tempTokenSecrets tok,
                credentialsByUserId :=
                  assocSet st.credentialsByUserId userId ⟨accessToken, accessSecret⟩ })

/-- Failure kinds of `computeAuthorizationHeader`: the explicit
`OAuth1AuthenticationException` for a missing credential, or the
`TypeError` thrown by `new URL` on an invalid request URL. -/
inductive SignatureError where
  | authenticationError (msg : String)
  | invalidUrl
deriving Repr, DecidableEq

/-- The six OAuth parameters assembled by `computeAuthorizationHeader`
before signing (`OAuth1Service.ts` lines 329-336). -/
def oauth1BaseParams (consumerKey nonce timestamp token : String) : List (String × String) :=
  [("oauth_consumer_key", consumerKey), ("oauth_nonce", nonce),
   ("oauth_signature_method", "RSA-SHA1"), ("oauth_timestamp", timestamp),
   ("oauth_token", token), ("oauth_version", "1.0")]

/-- Model of `computeAuthorizationHeader` (`OAuth1Service.ts` lines
323-345).  `rsaSign` abstracts the RSA-SHA1 signature of the base string
with the configured private key; `nonce` and `timestamp` abstract the
generated nonce and epoch seconds. -/
def computeAuthorizationHeader (st : AuthenticatorState) (consumerKey nonce timestamp : String)
    (rsaSign : String → String) (userId requestMethod requestUrl : String) :
    Except SignatureError String :=
  match assocGet st.credentialsByUserId userId with
  | none => .error (.authenticationError ("OAuth1 token for user " ++ userId ++ " was not found"))
  | some creds =>
    let oauthParams := oauth1BaseParams consumerKey nonce timestamp creds.token
    match buildSignatureBaseString requestMethod requestUrl oauthParams with
    | none => .error .invalidUrl
    | some baseString =>
      .ok (oauthHeader (oauthParams ++ [("oauth_signature", rsaSign baseString)]))

/-! Route models (`oauth1Routes.ts`). -/

/-- Model of the `GET /oauth/1.0/callback` route body (`oauth1Routes.ts`
lines 109-184) for a configured provider: on success redirect to the
repaired `redirect_after_login` from the state; on
`UserDeniedOAuthAuthenticationException` append `error_code=access_denied`;
on any other `OAuth1AuthenticationException` (and any other error) append
`error_code=invalid_request`.  Returns the redirect target and the
authenticator state after the call. -/
def oauth1CallbackRoute (st : AuthenticatorState) (oauthToken oauthVerifier : Option String)
    (state : String) (resp : HttpResponse) : String × AuthenticatorState :=
  let paramsFromState := queryMapFromState state
  match callbackStep st oauthToken oauthVerifier state resp with
  | .ok (_, st') => (getRedirectAfterLoginUrl paramsFromState none, st')
  | .error (.userDenied _) => (getRedirectAfterLoginUrl paramsFromState (some "access_denied"), st)
  | .error (.authenticationError _) =>
    (getRedirectAfterLoginUrl paramsFromState (some "invalid_request"), st)

/-- Model of the `GET /oauth/1.0/signature` route body (`oauth1Routes.ts`
lines 224-236) for a configured provider and present parameters: 200 with
the header on success, 401 on any thrown error. -/
def oauth1SignatureRoute (st : AuthenticatorState) (consumerKey nonce timestamp : String)
    (rsaSign : String → String) (userId requestMethod requestUrl : String) : Nat × String :=
  match computeAuthorizationHeader st consumerKey nonce timestamp rsaSign userId requestMethod requestUrl with
  | .ok header => (200, header)
  | .error _ => (401, "Unauthorized")

/-! Bitbucket Server personal-access-token rotation
(`createOrRefreshPersonalAccessToken`, `OAuth1Service.ts` lines 354-427).
The provider is modelled as the list of access tokens it currently holds
for the resolved user slug; the list call is modelled as returning all of
them and each delete call as removing the token with the given id. -/

structure BitbucketToken where
  id : Nat
  name : String
deriving Repr, DecidableEq

/-- Effect on the provider of `DELETE /rest/access-tokens/1.0/users/{slug}/{id}`. -/
def bitbucketDeleteToken (tokens : List BitbucketToken) (tokenId : Nat) : List BitbucketToken :=
  tokens.filter (fun t => t.id ≠ tokenId)

/-- Provider-state effect of `createOrRefreshPersonalAccessToken` steps
(3) and (4).  The list call requests only the first page
(`?start=0&limit=100`), so only tokens among the provider's first 100 are
candidates for deletion; `listOk` is whether that call returned 200 with a
`values` array (on failure the whole deletion step is skipped); each
matching listed token is then deleted, but a failed delete
(`deleteOk t.id = false`) is only logged and the token stays; finally the
new token with `tokenDisplayName` is created (`newId` is the id the
provider assigns; a failed create throws, so this is the state on the
successful path). -/
def createOrRefreshPersonalAccessToken (tokens : List BitbucketToken) (tokenDisplayName : String)
    (newId : Nat) (listOk : Bool) (deleteOk : Nat → Bool) : List BitbucketToken :=
  let page := tokens.take 100
  let afterDelete :=
    if listOk then
      let toDelete := page.filter (fun t => t.name == tokenDisplayName)
      toDelete.foldl
        (fun acc t => if deleteOk t.id then bitbucketDeleteToken acc t.id else acc) tokens
    else tokens
  afterDelete ++ [⟨newId, tokenDisplayName⟩]

/-! Token revocation route (`DELETE /oauth/token`, unnamed route module,
lines 254-380). -/

structure Subject where
  userId : String
  userName : String
deriving Repr, DecidableEq

structure StoredPat where
  tokenName : String
  cheUserId : String
  gitProvider : String
  isOauth : Bool
deriving Repr, DecidableEq

/-- State touched by revocation: the in-memory OAuth token map keyed by
(user id, provider) and the PAT secrets of the user's namespace. -/
structure OAuthStoreState where
  inMemoryTokens : List ((String × String) × String)
  pats : List StoredPat
deriving Repr, DecidableEq

/-- Modelled from the spec: `OAuthService.invalidateToken` (the
`OAuthService` class itself is not among the sources; the spec specifies
idempotent revocation of the in-memory token for the authenticated user
and provider).  Removes the entry for the (user, provider) pair. -/
def invalidateToken (tokens : List ((String × String) × String)) (userId provider : String) :
    List ((String × String) × String) :=
  tokens.filter (fun e => !(e.1.1 == userId && e.1.2 == provider))

/-- Model of the `DELETE /oauth/token` route body: 401 without an
authenticated subject, 400 without `oauth_provider`, otherwise invalidate
the in-memory token (errors ignored), delete the user's matching
OAuth-issued PAT secrets (best effort), and always return 204. -/
def deleteOauthTokenRoute (subject : Option Subject) (oauthProvider : Option String)
    (st : OAuthStoreState) : Nat × OAuthStoreState :=
  match subject with
  | none => (401, st)
  | some subj =>
    match oauthProvider with
    | none => (400, st)
    | some provider =>
      let inMem := invalidateToken st.inMemoryTokens subj.userId provider
      let pats := st.pats.filter
        (fun p => !(p.isOauth && toLowerStr p.gitProvider == toLowerStr provider
                      && p.cheUserId == subj.userId))
      (204, ⟨inMem, pats⟩)

/-! URL Resolver (`UrlParsers.ts`).  The descriptors keep the fields the
parsers compute; the `devfileFilenames` parameter (a constant default list
defined outside these sources and passed through unchanged) is omitted. -/

structure GithubUrlD where
  serverUrl : String
  username : String
  repository : String
  branch : String
deriving Repr, DecidableEq

structure GitlabUrlD where
  scheme : String
  hostName : String
  port : Option String
  subGroups : String
  branch : String
deriving Repr, DecidableEq

structure BitbucketUrlD where
  serverUrl : String
  workspace : String
  repository : String
  branch : String
deriving Repr, DecidableEq

structure BitbucketServerUrlD where
  serverUrl : String
  project : Option String
  user : Option String
  repository : String
  branch : String
deriving Repr, DecidableEq

/-- JavaScript truthiness of an optional string (`undefined` and `''` are
falsy), used by `if (this.project)` / `if (this.user)`. -/
def optTruthy (o : Option String) : Bool := o.getD "" != ""

/-- Rewrite `git@host:path` SSH syntax to `https://host/path`, mirroring
the regex `^git@([^:]+):(.+)$` applied when the URL starts with `git@`. -/
def sshToHttps (url : String) : String :=
  if ("git@".data).isPrefixOf url.data then
    let rest := url.data.drop 4
    match breakOnFirst ':' rest with
    | some (host, path) =>
      if host ≠ [] ∧ path ≠ [] then ⟨"https://".data ++ host ++ '/' :: path⟩ else url
    | none => url
  else url

/-- Path segments: `urlObj.pathname.split('/').filter(p => p)`. -/
def pathSegments (u : SimpleUrl) : List String :=
  ((splitOnChar '/' u.pathname.data).filter (fun p => p ≠ [])).map (fun l => (⟨l⟩ : String))

/-- Strip one trailing `.git` suffix. -/
def stripDotGit (s : String) : String :=
  if (".git".data).isSuffixOf s.data then ⟨s.data.take (s.data.length - 4)⟩ else s

/-- Model of `GithubUrl.parse` (`UrlParsers.ts` lines 112-166): rewrite SSH
syntax, parse the URL, require the substring `github` anywhere in the
normalized URL, require at least two path segments; owner and repository
are the first two segments (repository with `.git` stripped), the ref is
segment four when segment three is `tree` or `blob`. -/
def githubParse (url : String) : Option GithubUrlD :=
  let normalizedUrl := sshToHttps url
  match parseUrl normalizedUrl with
  | none => none
  | some u =>
    if ¬ (containsSub normalizedUrl "github.com") ∧ ¬ (containsSub normalizedUrl "github") then none
    else
      let pathParts := pathSegments u
      if pathParts.length < 2 then none
      else
        let username := pathParts.headD ""
        let repository := stripDotGit (pathParts.getD 1 "")
        let branch :=
          if 4 ≤ pathParts.length ∧ (pathParts.getD 2 "" = "tree" ∨ pathParts.getD 2 "" = "blob")
          then pathParts.getD 3 "" else "HEAD"
        some ⟨u.protocol ++ "//" ++ u.host, username, repository, branch⟩

/-- Model of `GitlabUrl.parse` (`UrlParsers.ts` lines 239-297). -/
def gitlabParse (url : String) : Option GitlabUrlD :=
  let normalizedUrl := sshToHttps url
  match parseUrl normalizedUrl with
  | none => none
  | some u =>
    if ¬ (containsSub normalizedUrl "gitlab.com") ∧ ¬ (containsSub normalizedUrl "gitlab") then none
    else
      let port := if u.port = "" then none else some u.port
      let p1 := match u.pathname.data with
        | '/' :: rest => rest
        | l => l
      let p2 := if p1.getLast? = some '/' then p1.take (p1.length - 1) else p1
      let p3 := if (".git".data).isSuffixOf p2 then p2.take (p2.length - 4) else p2
      let (subGroups, branch) := match indexOfSub ("/-/tree/".data) p3 with
        | some idx =>
          if 0 < idx then (p3.take idx, p3.drop (idx + 8)) else (p3, "HEAD".data)
        | none => (p3, "HEAD".data)
      some ⟨u.scheme, u.hostname, port, ⟨subGroups⟩, ⟨branch⟩⟩

/-- Model of `BitbucketUrl.parse` (Bitbucket Cloud, `UrlParsers.ts` lines
346-433): requires the substring `bitbucket.org`; owner and repository are
the first two path segments, the ref is segment four when segment three is
`src`. -/
def bitbucketParse (url : String) : Option BitbucketUrlD :=
  let normalizedUrl := sshToHttps url
  match parseUrl normalizedUrl with
  | none => none
  | some u =>
    if ¬ (containsSub normalizedUrl "bitbucket.org") ∧ ¬ (containsSub normalizedUrl "api.bitbucket.org")
    then none
    else
      let pathParts := pathSegments u
      if pathParts.length < 2 then none
      else
        let workspace := pathParts.headD ""
        let repository := stripDotGit (pathParts.getD 1 "")
        let branch := if 4 ≤ pathParts.length ∧ pathParts.getD 2 "" = "src"
          then pathParts.getD 3 "" else "HEAD"
        some ⟨u.protocol ++ "//" ++ u.hostname, workspace, repository, branch⟩

/-- The branch of a Bitbucket Server URL:
`urlObj.searchParams.get('at') || 'HEAD'`. -/
def bbServerBranch (u : SimpleUrl) : String :=
  match searchParamsGet u "at" with
  | some b => if b = "" then "HEAD" else b
  | none => "HEAD"

/-- Model of `BitbucketServerUrl.parse` (`UrlParsers.ts` lines 487-545):
rewrite `ssh://git@host...`, then match the `/scm/...`,
`/projects/<project>/repos/<repo>/...` and `/users/<user>/repos/<repo>/...`
path shapes. -/
def bitbucketServerParse (url : String) : Option BitbucketServerUrlD :=
  let normalizedUrl :=
    if ("ssh://git@".data).isPrefixOf url.data then
      let rest := url.data.drop 10
      let hostEnd : Nat :=
        if rest.contains ':' then (indexOfSub [':'] rest).getD 0
        else (indexOfSub ['/'] rest).getD 0
      let host := rest.take hostEnd
      let tail := match indexOfSub ['/'] rest with
        | some i => rest.drop i
        | none => []
      (⟨"https://".data ++ host ++ tail⟩ : String)
    else url
  match parseUrl normalizedUrl with
  | none => none
  | some u =>
    let serverUrl := u.protocol ++ "//" ++ u.host
    let pathParts := pathSegments u
    let branch := bbServerBranch u
    if pathParts.headD "" = "scm" ∧ 3 ≤ pathParts.length then
      let owner := pathParts.getD 1 ""
      let repo := stripDotGit (pathParts.getD 2 "")
      if ("~".data).isPrefixOf owner.data then
        some ⟨serverUrl, none, some ⟨owner.data.drop 1⟩, repo, branch⟩
      else
        some ⟨serverUrl, some owner, none, repo, branch⟩
    else if pathParts.headD "" = "projects" then
      let reposIdx := pathParts.indexOf "repos"
      if 0 < reposIdx ∧ reposIdx + 1 < pathParts.length then
        some ⟨serverUrl, some (pathParts.getD 1 ""), none, pathParts.getD (reposIdx + 1) "", branch⟩
      else none
    else if pathParts.headD "" = "users" then
      let reposIdx := pathParts.indexOf "repos"
      if 0 < reposIdx ∧ reposIdx + 1 < pathParts.length then
        some ⟨serverUrl, none, some (pathParts.getD 1 ""), pathParts.getD (reposIdx + 1) "", branch⟩
      else none
    else none

/-- The `?at=<ref>` suffix of a Bitbucket Server raw location:
`this.branch && this.branch !== 'HEAD' ? '?at=' + encodeURIComponent(this.branch) : ''`. -/
def bbAtSuffix (branch : String) : String :=
  if branch ≠ "" ∧ branch ≠ "HEAD" then "?at=" ++ encodeURIComponent branch else ""

/-- Model of `BitbucketServerUrl.rawFileLocation` (`UrlParsers.ts` lines
475-485): the `/projects/{project}/...` form when a (truthy) project is
present, the `/users/{user}/...` form when a (truthy) user is present,
else the fallback with an empty project. -/
def BitbucketServerUrlD.rawFileLocation (d : BitbucketServerUrlD) (filename : String) : String :=
  let atSuffix := bbAtSuffix d.branch
  if optTruthy d.project then
    d.serverUrl ++ "/rest/api/1.0/projects/" ++ encodeURIComponent (d.project.getD "") ++
      "/repos/" ++ encodeURIComponent d.repository ++ "/raw/" ++ filename ++ atSuffix
  else if optTruthy d.user then
    d.serverUrl ++ "/rest/api/1.0/users/" ++ encodeURIComponent (d.user.getD "") ++
      "/repos/" ++ encodeURIComponent d.repository ++ "/raw/" ++ filename ++ atSuffix
  else
    d.serverUrl ++ "/rest/api/1.0/projects/" ++ encodeURIComponent "" ++
      "/repos/" ++ encodeURIComponent d.repository ++ "/raw/" ++ filename ++ atSuffix

/-- The closed union of provider descriptors. -/
inductive RemoteFactoryUrl where
  | github (d : GithubUrlD)
  | gitlab (d : GitlabUrlD)
  | bitbucketServer (d : BitbucketServerUrlD)
  | bitbucket (d : BitbucketUrlD)
deriving Repr, DecidableEq

/-- Model of `UrlParserService.parse` (`UrlParsers.ts` lines 557-586):
try GitHub, GitLab, Bitbucket Server, Bitbucket Cloud in order; the first
structural match wins. -/
def urlParserServiceParse (url : String) : Option RemoteFactoryUrl :=
  match githubParse url with
  | some g => some (.github g)
  | none =>
    match gitlabParse url with
    | some g => some (.gitlab g)
    | none =>
      match bitbucketServerParse url with
      | some b => some (.bitbucketServer b)
      | none =>
        match bitbucketParse url with
        | some b => some (.bitbucket b)
        | none => none

/-! Lemmas about parameter maps: lookups and sorted keys are invariant
under permutation (for duplicate-free key sets), and sorting the keys then
looking each one up is the same as sorting the pairs by key. -/

lemma string_data_inj {a b : String} (h : a.data = b.data) : a = b := by
  cases a; cases b; exact congrArg String.mk h

lemma lookupD_mem {l : List (String × String)} (hnd : (l.map Prod.fst).Nodup)
    {p : String × String} (hp : p ∈ l) : lookupD l p.1 = p.2 := by
  unfold lookupD
  cases hfind : l.find? (fun q => q.1 == p.1) with
  | none =>
    exact absurd (by simp) (List.find?_eq_none.mp hfind p hp)
  | some q =>
    have hq1t := List.find?_some hfind
    have hq1 : q.1 = p.1 := eq_of_beq hq1t
    have hqp : q = p := List.inj_on_of_nodup_map hnd (List.mem_of_find?_eq_some hfind) hp hq1
    simp [hqp]

lemma map_key_lookup_self {l : List (String × String)} (hnd : (l.map Prod.fst).Nodup) :
    l.map (fun p => (p.1, lookupD l p.1)) = l := by
  have h : ∀ p ∈ l, (p.1, lookupD l p.1) = id p := by
    intro p hp
    simp [lookupD_mem hnd hp]
  rw [List.map_congr_left h, List.map_id]

lemma pairwise_keyPairLt_of_le_nodup {l : List (String × String)}
    (hs : List.Pairwise keyPairLe l) (hnd : (l.map Prod.fst).Nodup) :
    List.Pairwise (fun a b : String × String => a.1.data < b.1.data) l := by
  have hne : List.Pairwise (fun a b : String × String => a.1 ≠ b.1) l := List.pairwise_map.mp hnd
  refine (hs.and hne).imp (fun h => ?_)
  exact lt_of_le_of_ne h.1 (fun hd => h.2 (string_data_inj hd))

instance : IsAntisymm (String × String) (fun a b : String × String => a.1.data < b.1.data) :=
  ⟨fun _ _ h1 h2 => absurd h1 (lt_asymm h2)⟩

lemma sortedKeys_map_eq_pairSort {l : List (String × String)} (hnd : (l.map Prod.fst).Nodup) :
    (sortedKeys l).map (fun k => (k, lookupD l k)) = pairSortByKey l := by
  have h1 : (sortedKeys l).Perm (l.map Prod.fst) := List.perm_insertionSort _ _
  have h2 : (l.map Prod.fst).map (fun k => (k, lookupD l k)) = l := by
    rw [List.map_map]
    exact map_key_lookup_self hnd
  have hL : ((sortedKeys l).map (fun k => (k, lookupD l k))).Perm l := by
    have := h1.map (fun k => (k, lookupD l k))
    rwa [h2] at this
  have hR : (pairSortByKey l).Perm l := List.perm_insertionSort _ _
  have hsk : List.Sorted stringKeyLe (sortedKeys l) := List.sorted_insertionSort _ _
  have hsknd : (sortedKeys l).Nodup := h1.nodup_iff.mpr hnd
  have hLs : List.Pairwise keyPairLe ((sortedKeys l).map (fun k => (k, lookupD l k))) := by
    rw [List.pairwise_map]
    exact hsk
  have hLkeys : ((sortedKeys l).map (fun k => (k, lookupD l k))).map Prod.fst = sortedKeys l := by
    rw [List.map_map]
    exact List.map_id' _
  have hLnd : (((sortedKeys l).map (fun k => (k, lookupD l k))).map Prod.fst).Nodup := by
    rw [hLkeys]; exact hsknd
  have hRs : List.Pairwise keyPairLe (pairSortByKey l) := List.sorted_insertionSort _ _
  have hRnd : ((pairSortByKey l).map Prod.fst).Nodup := by
    exact ((hR.map Prod.fst).nodup_iff).mpr hnd
  exact List.eq_of_perm_of_sorted (hL.trans hR.symm)
    (pairwise_keyPairLt_of_le_nodup hLs hLnd) (pairwise_keyPairLt_of_le_nodup hRs hRnd)

lemma lookupD_perm {l l' : List (String × String)} (hp : l.Perm l')
    (hnd : (l.map Prod.fst).Nodup) (k : String) : lookupD l k = lookupD l' k := by
  unfold lookupD
  cases hfind : l.find? (fun q => q.1 == k) with
  | none =>
    have h0 := List.find?_eq_none.mp hfind
    have : l'.find? (fun q => q.1 == k) = none :=
      List.find?_eq_none.mpr (fun x hx => h0 x (hp.mem_iff.mpr hx))
    rw [this]
  | some q =>
    have hqmem := List.mem_of_find?_eq_some hfind
    cases hfind' : l'.find? (fun q => q.1 == k) with
    | none =>
      exact absurd (List.find?_some hfind)
        (List.find?_eq_none.mp hfind' q (hp.mem_iff.mp hqmem))
    | some r =>
      have hrmem := hp.mem_iff.mpr (List.mem_of_find?_eq_some hfind')
      have hq1t := List.find?_some hfind
      have hr1t := List.find?_some hfind'
      have hqr : q = r := List.inj_on_of_nodup_map hnd hqmem hrmem
        ((eq_of_beq hq1t).trans (eq_of_beq hr1t).symm)
      rw [hqr]

lemma sortedKeys_perm_eq {l l' : List (String × String)} (hp : l.Perm l') :
    sortedKeys l = sortedKeys l' := by
  refine List.eq_of_perm_of_sorted ?_ (List.sorted_insertionSort _ _) (List.sorted_insertionSort _ _)
  exact (List.perm_insertionSort _ _).trans ((hp.map _).trans (List.perm_insertionSort _ _).symm)

lemma normalizeParameters_eq_spec {l : List (String × String)} (hnd : (l.map Prod.fst).Nodup) :
    normalizeParameters l = specNormalizedParams l := by
  unfold normalizeParameters specNormalizedParams
  rw [← sortedKeys_map_eq_pairSort hnd, List.map_map]
  rfl

lemma normalizeParameters_perm {l l' : List (String × String)} (hp : l.Perm l')
    (hnd : (l.map Prod.fst).Nodup) : normalizeParameters l = normalizeParameters l' := by
  unfold normalizeParameters
  rw [sortedKeys_perm_eq hp]
  congr 1
  exact List.map_congr_left (fun k _ => by rw [lookupD_perm hp hnd k])

/-- C1: the OAuth 1.0a signature base string is
`UPPER(method) & percentEncode(base URL without query and fragment) &
percentEncode(key=value pairs sorted lexicographically by key, percent
encoded, joined by '&')`, and two parameter maps that are equal as sets of
key-value pairs produce the identical base string regardless of order. -/
theorem oauth1_signature_base_string_correct (method url : String)
    (params params' : List (String × String))
    (hnd : (params.map Prod.fst).Nodup) (hperm : params.Perm params') :
    buildSignatureBaseString method url params = specSignatureBaseString method url params ∧
    buildSignatureBaseString method url params = buildSignatureBaseString method url params' := by
  constructor
  · unfold buildSignatureBaseString specSignatureBaseString
    rw [normalizeParameters_eq_spec hnd]
  · unfold buildSignatureBaseString
    rw [normalizeParameters_perm hperm hnd]

theorem oauth1_signature_base_string_correct_witness :
    (([("b", "2"), ("a", "1")].map (Prod.fst : String × String → String)).Nodup) ∧
    (([("b", "2"), ("a", "1")] : List (String × String)).Perm [("a", "1"), ("b", "2")]) ∧
    (buildSignatureBaseString "post" "https://example.com/r?x=1#f" [("b", "2"), ("a", "1")] =
        specSignatureBaseString "post" "https://example.com/r?x=1#f" [("b", "2"), ("a", "1")] ∧
      buildSignatureBaseString "post" "https://example.com/r?x=1#f" [("b", "2"), ("a", "1")] =
        buildSignatureBaseString "post" "https://example.com/r?x=1#f" [("a", "1"), ("b", "2")]) :=
  ⟨by decide, by decide,
    oauth1_signature_base_string_correct "post" "https://example.com/r?x=1#f"
      [("b", "2"), ("a", "1")] [("a", "1"), ("b", "2")] (by decide) (by decide)⟩

/-! Single use of the temporary request-token secret (C2). -/

lemma assocGet_assocDelete {α : Type} (m : List (String × α)) (k : String) :
    assocGet (assocDelete m k) k = none := by
  unfold assocGet assocDelete
  rw [List.find?_eq_none.mpr]
  · rfl
  · intro x hx
    have hmem := (List.mem_filter.mp hx).2
    simp only [bne_iff_ne, ne_eq, decide_eq_true_eq] at hmem
    simpa using hmem

/-- C2 counterexample: a callback whose access-token exchange the provider
accepts succeeds even when no temporary secret is stored for the token.
The first conjunct is a successful callback for `oauth_token=T` (after
which the secret for `T` is gone), the second is a second callback for the
same `T` that silently succeeds because the provider again answered 200,
and the third records that no secret for `T` was stored at that point. -/
theorem second_callback_silently_succeeds_counterexample :
    (callbackStep ⟨[("T", "S")], []⟩ (some "T") (some "v") "userId=u1"
        ⟨200, "oauth_token=atk&oauth_token_secret=asec"⟩ =
      .ok ("u1", ⟨[], [("u1", ⟨"atk", some "asec"⟩)]⟩)) ∧
    (callbackStep ⟨[], [("u1", ⟨"atk", some "asec"⟩)]⟩ (some "T") (some "v") "userId=u1"
        ⟨200, "oauth_token=atk2"⟩ =
      .ok ("u1", ⟨[], [("u1", ⟨"atk2", none⟩)]⟩)) ∧
    assocGet (⟨[], [("u1", ⟨"atk", some "asec"⟩)]⟩ : AuthenticatorState).tempTokenSecrets "T" =
      none :=
  ⟨rfl, rfl, rfl⟩

/-- C2 amended: a successful callback deletes the stored temporary secret
for its `oauth_token`; but a callback for an unknown or already-consumed
token is not rejected locally — it proceeds without a stored secret and
fails with an `OAuth1AuthenticationException` exactly when the provider's
access-token response is rejected (non-200 status, blank body, missing or
empty `oauth_token`) or the echoed state carries no `userId`; when the
provider accepts, it silently succeeds. -/
theorem single_use_secret_amended :
    (∀ st tok verifier state resp userId st',
        callbackStep st (some tok) (some verifier) state resp = .ok (userId, st') →
        assocGet st'.tempTokenSecrets tok = none) ∧
    (∀ st tok verifier state resp, verifier ≠ "denied" →
        assocGet st.tempTokenSecrets tok = none →
        ((∃ e, callbackStep st (some tok) (some verifier) state resp = .error e) ↔
          (resp.status ≠ 200 ∨ isNonEmptyStr resp.body = false ∨
            (assocGet (parseQueryBody resp.body) "oauth_token").getD "" = "" ∨
            isNonEmptyStr ((assocGet (urlSearchParamsEntries state) "userId").getD "") = false))) := by
  constructor
  · intro st tok verifier state resp userId st' h
    simp only [callbackStep] at h
    split at h
    · exact absurd h (by simp)
    · split at h
      · exact absurd h (by simp)
      · split at h
        · exact absurd h (by simp)
        · split at h
          · exact absurd h (by simp)
          · rw [Except.ok.injEq, Prod.mk.injEq] at h
            rw [← h.2]
            exact assocGet_assocDelete st.tempTokenSecrets tok
  · intro st tok verifier state resp hver _
    simp only [callbackStep, if_neg hver]
    by_cases h1 : resp.status ≠ 200 ∨ isNonEmptyStr resp.body = false
    · rw [if_pos h1]
      exact ⟨fun _ => h1.elim Or.inl (fun h => Or.inr (Or.inl h)), fun _ => ⟨_, rfl⟩⟩
    · rw [if_neg h1]
      push_neg at h1
      by_cases h2 : (assocGet (parseQueryBody resp.body) "oauth_token").getD "" = ""
      · rw [if_pos h2]
        exact ⟨fun _ => Or.inr (Or.inr (Or.inl h2)), fun _ => ⟨_, rfl⟩⟩
      · rw [if_neg h2]
        by_cases h3 :
            isNonEmptyStr ((assocGet (urlSearchParamsEntries state) "userId").getD "") = false
        · rw [if_pos h3]
          exact ⟨fun _ => Or.inr (Or.inr (Or.inr h3)), fun _ => ⟨_, rfl⟩⟩
        · rw [if_neg h3]
          constructor
          · rintro ⟨e, he⟩
            exact absurd he (by simp)
          · rintro (h | h | h | h)
            · exact absurd h1.1 h
            · exact absurd h h1.2
            · exact absurd h h2
            · exact absurd h h3

theorem single_use_secret_amended_witness :
    ("v" : String) ≠ "denied" ∧
    assocGet (⟨[], []⟩ : AuthenticatorState).tempTokenSecrets "T" = none ∧
    (∃ e, callbackStep ⟨[], []⟩ (some "T") (some "v") "" ⟨500, ""⟩ = .error e) :=
  ⟨by decide, by decide,
    (single_use_secret_amended.2 ⟨[], []⟩ "T" "v" "" ⟨500, ""⟩ (by decide) (by decide)).mpr
      (by decide)⟩

/-! Redirect-repair codec (C4). -/

/-- C4 counterexample: the repair codec is not idempotent in general.  For
`redirect_after_login = "https://x.com/{a}?q=1"` (a literal brace in the
path), one repair yields `"https://x.com/{a}?q%3D1"`, which still contains
a brace, so repairing that output encodes the query again and yields
`"https://x.com/{a}?q%253D1"` — repairing a repaired URL is not the
identity. -/
theorem redirect_repair_not_idempotent_counterexample :
    getRedirectAfterLoginUrl [("redirect_after_login", "https://x.com/{a}?q=1")] none =
      "https://x.com/{a}?q%3D1" ∧
    getRedirectAfterLoginUrl [("redirect_after_login", "https://x.com/{a}?q%3D1")] none =
      "https://x.com/{a}?q%253D1" := by
  decide

/-- C4 amended: the codec maps `"https://x.com?params={}"` to
`"https://x.com?params%3D%7B%7D"` and returns the already-encoded
`"https://x.com?params=%7B%7D"` unchanged; repair is the identity on every
redirect URL containing no literal brace (hence repairing either repaired
example again is the identity, though not for URLs with braces outside the
query); and the appended error code uses `&` when the URL already contains
`?` and `?` otherwise. -/
theorem redirect_repair_amended :
    (getRedirectAfterLoginUrl [("redirect_after_login", "https://x.com?params={}")] none =
      "https://x.com?params%3D%7B%7D") ∧
    (getRedirectAfterLoginUrl [("redirect_after_login", "https://x.com?params=%7B%7D")] none =
      "https://x.com?params=%7B%7D") ∧
    (∀ r : String, containsChar r '{' = false → containsChar r '}' = false →
      getRedirectAfterLoginUrl [("redirect_after_login", r)] none = r) ∧
    (∀ params ec,
      getRedirectAfterLoginUrl params (some ec) =
        getRedirectAfterLoginUrl params none ++
          (if containsChar (getRedirectAfterLoginUrl params none) '?' then "&" else "?") ++
          "error_code=" ++ ec) := by
  refine ⟨by decide, by decide, ?_, fun params ec => rfl⟩
  intro r h1 h2
  show (if containsChar r '{' || containsChar r '}' then encodeRedirectUrlLikeJava r else r) = r
  rw [h1, h2]
  rfl

theorem redirect_repair_amended_witness :
    containsChar "https://x.com?params%3D%7B%7D" '{' = false ∧
    containsChar "https://x.com?params%3D%7B%7D" '}' = false ∧
    getRedirectAfterLoginUrl [("redirect_after_login", "https://x.com?params%3D%7B%7D")] none =
      "https://x.com?params%3D%7B%7D" :=
  ⟨by decide, by decide,
    redirect_repair_amended.2.2.1 "https://x.com?params%3D%7B%7D" (by decide) (by decide)⟩

/-! Denied flow (C5). -/

/-- C5: a callback with `oauth_verifier=denied` raises the user-denied
failure kind (`UserDeniedOAuthAuthenticationException`, distinct from the
generic error), the callback route then redirects to the state's
`redirect_after_login` with `error_code=access_denied` appended, and for
`redirect_after_login=/dashboard/` the target is
`/dashboard/?error_code=access_denied`. -/
theorem denied_callback_redirects_access_denied :
    (∀ st tok state resp,
      callbackStep st (some tok) (some "denied") state resp =
        .error (.userDenied "Authorization denied")) ∧
    (∀ st tok state resp,
      (oauth1CallbackRoute st (some tok) (some "denied") state resp).1 =
        getRedirectAfterLoginUrl (queryMapFromState state) (some "access_denied")) ∧
    (∀ st resp,
      (oauth1CallbackRoute st (some "tok") (some "denied") "redirect_after_login=/dashboard/"
          resp).1 =
        "/dashboard/?error_code=access_denied") :=
  ⟨fun _ _ _ _ => rfl, fun _ _ _ _ => rfl, fun _ _ => rfl⟩

/-! Personal-access-token rotation (C3). -/

lemma foldl_delete_eq_filter (ds : List BitbucketToken) (l : List BitbucketToken) :
    ds.foldl (fun acc t => bitbucketDeleteToken acc t.id) l =
      l.filter (fun t => !(ds.map BitbucketToken.id).contains t.id) := by
  induction ds generalizing l with
  | nil => simp
  | cons d ds ih =>
    rw [List.foldl_cons, ih]
    unfold bitbucketDeleteToken
    rw [List.filter_filter]
    apply List.filter_congr
    intro t _
    simp only [List.map_cons, List.contains_cons]
    cases h : t.id == d.id with
    | false => simp [h, ne_of_beq_false h]
    | true => simp [h, eq_of_beq h]

lemma countP_filter_ne_append (tokens : List BitbucketToken) (name : String) (k : Nat) :
    (tokens.filter (fun t => !(t.name == name)) ++ [(⟨k, name⟩ : BitbucketToken)]).countP
      (fun t => t.name == name) = 1 := by
  rw [List.countP_append]
  have hzero : (tokens.filter (fun t => !(t.name == name))).countP
      (fun t => t.name == name) = 0 := by
    rw [List.countP_eq_zero]
    intro a ha hname
    have hmem : (!(a.name == name)) = true := (List.mem_filter.mp ha).2
    rw [hname] at hmem
    exact absurd hmem (by simp)
  rw [hzero]
  simp

/-- When the provider holds at most one page of tokens, the list call
succeeded and every delete succeeds, the rotation reduces to: keep the
tokens with a different display name, append the new token. -/
lemma rotation_canonical (tokens : List BitbucketToken) (name : String) (k : Nat)
    (deleteOk : Nat → Bool) (hids : (tokens.map BitbucketToken.id).Nodup)
    (hlen : tokens.length ≤ 100) (hdel : ∀ n, deleteOk n = true) :
    createOrRefreshPersonalAccessToken tokens name k true deleteOk =
      tokens.filter (fun t => !(t.name == name)) ++ [⟨k, name⟩] := by
  simp only [createOrRefreshPersonalAccessToken, hdel, eq_self_iff_true, if_true,
    List.take_of_length_le hlen]
  rw [foldl_delete_eq_filter]
  congr 1
  apply List.filter_congr
  intro t ht
  have hmain : ((tokens.filter (fun t => t.name == name)).map BitbucketToken.id).contains t.id
      = (t.name == name) := by
    cases hname : t.name == name with
    | true =>
      exact List.elem_eq_true_of_mem
        (List.mem_map_of_mem _ (List.mem_filter.mpr ⟨ht, hname⟩))
    | false =>
      rw [Bool.eq_false_iff]
      intro hcon
      rcases List.mem_map.mp (List.mem_of_elem_eq_true hcon) with ⟨s, hs, hsid⟩
      have hst : s = t :=
        List.inj_on_of_nodup_map hids (List.mem_filter.mp hs).1 ht hsid
      have hsn : (s.name == name) = true := (List.mem_filter.mp hs).2
      rw [hst, hname] at hsn
      exact absurd hsn (by simp)
  exact congrArg (fun b => !b) hmain

/-- C3 counterexample: the code does not guarantee a single token under
the display name.  With 101 provider tokens whose only same-named token is
the 101st, the one-page list call (`start=0&limit=100`) never sees it, so
rotation leaves two tokens named `che-token`; a failed list call (deletion
step skipped) or a failed delete (logged and ignored) likewise leaves two,
with every provider id distinct and all other calls succeeding. -/
theorem pat_rotation_duplicates_counterexample :
    ((createOrRefreshPersonalAccessToken
        ((List.range 100).map (fun k => ⟨k, "other"⟩) ++ [⟨100, "che-token"⟩])
        "che-token" 101 true (fun _ => true)).countP
      (fun t => t.name == "che-token") = 2) ∧
    ((createOrRefreshPersonalAccessToken [⟨1, "che-token"⟩] "che-token" 2 false
        (fun _ => true)).countP (fun t => t.name == "che-token") = 2) ∧
    ((createOrRefreshPersonalAccessToken [⟨1, "che-token"⟩] "che-token" 2 true
        (fun _ => false)).countP (fun t => t.name == "che-token") = 2) := by
  refine ⟨by decide, by decide, by decide⟩

/-- C3 amended: when the provider's token list fits in the single
requested page (at most 100 tokens), the list call succeeds and every
delete succeeds, rotation deletes every existing token with the requested
display name before creating the new one, leaving exactly one active
token under that name; a second rotation (with a fresh token id and at
most 99 pre-existing tokens, so the page again covers everything) again
leaves exactly one.  Beyond one page, or when the list call or a delete
fails, duplicate-named tokens can remain. -/
theorem pat_rotation_exactly_one (tokens : List BitbucketToken) (name : String) (i j : Nat)
    (deleteOk : Nat → Bool) (hids : (tokens.map BitbucketToken.id).Nodup)
    (hlen : tokens.length ≤ 100) (hdel : ∀ n, deleteOk n = true) :
    createOrRefreshPersonalAccessToken tokens name i true deleteOk =
      tokens.filter (fun t => !(t.name == name)) ++ [⟨i, name⟩] ∧
    (createOrRefreshPersonalAccessToken tokens name i true deleteOk).countP
      (fun t => t.name == name) = 1 ∧
    (tokens.length ≤ 99 → i ∉ tokens.map BitbucketToken.id →
      (createOrRefreshPersonalAccessToken
          (createOrRefreshPersonalAccessToken tokens name i true deleteOk) name j true
          deleteOk).countP (fun t => t.name == name) = 1) := by
  have h1 := rotation_canonical tokens name i deleteOk hids hlen hdel
  refine ⟨h1, ?_, ?_⟩
  · rw [h1]
    exact countP_filter_ne_append tokens name i
  · intro h99 hfresh
    have hsub : ((tokens.filter (fun t => !(t.name == name))).map BitbucketToken.id).Sublist
        (tokens.map BitbucketToken.id) :=
      (List.filter_sublist tokens).map BitbucketToken.id
    have hnd1 : (((tokens.filter (fun t => !(t.name == name)) ++
        [(⟨i, name⟩ : BitbucketToken)]).map BitbucketToken.id)).Nodup := by
      rw [List.map_append]
      refine List.Nodup.append ?_ ?_ ?_
      · exact hids.sublist hsub
      · exact List.nodup_singleton _
      · intro a ha hb
        have hb' : a = i := by simpa using hb
        rw [hb'] at ha
        exact hfresh (hsub.subset ha)
    have hlen1 : (tokens.filter (fun t => !(t.name == name)) ++
        [(⟨i, name⟩ : BitbucketToken)]).length ≤ 100 := by
      rw [List.length_append]
      have hf := List.length_filter_le (fun t => !(t.name == name)) tokens
      simp only [List.length_singleton]
      omega
    rw [h1, rotation_canonical _ name j deleteOk hnd1 hlen1 hdel]
    exact countP_filter_ne_append _ name j

theorem pat_rotation_exactly_one_witness :
    (([⟨1, "che-token"⟩, ⟨2, "other"⟩, ⟨3, "che-token"⟩] :
        List BitbucketToken).map BitbucketToken.id).Nodup ∧
    ([⟨1, "che-token"⟩, ⟨2, "other"⟩, ⟨3, "che-token"⟩] : List BitbucketToken).length ≤ 100 ∧
    (∀ n : Nat, (fun _ : Nat => true) n = true) ∧
    ([⟨1, "che-token"⟩, ⟨2, "other"⟩, ⟨3, "che-token"⟩] : List BitbucketToken).length ≤ 99 ∧
    5 ∉ ([⟨1, "che-token"⟩, ⟨2, "other"⟩, ⟨3, "che-token"⟩] :
        List BitbucketToken).map BitbucketToken.id ∧
    createOrRefreshPersonalAccessToken [⟨1, "che-token"⟩, ⟨2, "other"⟩, ⟨3, "che-token"⟩]
        "che-token" 5 true (fun _ => true) =
      ([⟨1, "che-token"⟩, ⟨2, "other"⟩, ⟨3, "che-token"⟩] :
          List BitbucketToken).filter (fun t => !(t.name == "che-token")) ++ [⟨5, "che-token"⟩] ∧
    (createOrRefreshPersonalAccessToken [⟨1, "che-token"⟩, ⟨2, "other"⟩, ⟨3, "che-token"⟩]
        "che-token" 5 true (fun _ => true)).countP (fun t => t.name == "che-token") = 1 ∧
    (createOrRefreshPersonalAccessToken
        (createOrRefreshPersonalAccessToken [⟨1, "che-token"⟩, ⟨2, "other"⟩, ⟨3, "che-token"⟩]
          "che-token" 5 true (fun _ => true)) "che-token" 6 true
        (fun _ => true)).countP (fun t => t.name == "che-token") = 1 :=
  ⟨by decide, by decide, fun _ => rfl, by decide, by decide,
    (pat_rotation_exactly_one [⟨1, "che-token"⟩, ⟨2, "other"⟩, ⟨3, "che-token"⟩]
      "che-token" 5 6 (fun _ => true) (by decide) (by decide) (fun _ => rfl)).1,
    (pat_rotation_exactly_one [⟨1, "che-token"⟩, ⟨2, "other"⟩, ⟨3, "che-token"⟩]
      "che-token" 5 6 (fun _ => true) (by decide) (by decide) (fun _ => rfl)).2.1,
    (pat_rotation_exactly_one [⟨1, "che-token"⟩, ⟨2, "other"⟩, ⟨3, "che-token"⟩]
      "che-token" 5 6 (fun _ => true) (by decide) (by decide) (fun _ => rfl)).2.2
      (by decide) (by decide)⟩

/-! Idempotent token revocation (C9). -/

/-- C9: for an authenticated subject and a named provider, `DELETE
/oauth/token` always answers 204 — in particular on a store holding no
token for the pair at all — and repeating the revocation after a
successful revocation answers 204 again and leaves the store unchanged;
absence of a token is never reported as an error. -/
lemma filter_idem {α : Type} (p : α → Bool) (l : List α) :
    (l.filter p).filter p = l.filter p := by
  rw [List.filter_filter]
  exact List.filter_congr (fun a _ => Bool.and_self (p a))

theorem delete_oauth_token_idempotent (subj : Subject) (provider : String)
    (st : OAuthStoreState) :
    (deleteOauthTokenRoute (some subj) (some provider) st).1 = 204 ∧
    (deleteOauthTokenRoute (some subj) (some provider) ⟨[], []⟩).1 = 204 ∧
    deleteOauthTokenRoute (some subj) (some provider)
        (deleteOauthTokenRoute (some subj) (some provider) st).2 =
      (204, (deleteOauthTokenRoute (some subj) (some provider) st).2) := by
  refine ⟨rfl, rfl, ?_⟩
  simp only [deleteOauthTokenRoute, invalidateToken]
  rw [filter_idem, filter_idem]

/-! URL Resolver claims (C6, C7, C10). -/

lemma bbServerBranch_ne_empty (v : SimpleUrl) : bbServerBranch v ≠ "" := by
  unfold bbServerBranch
  cases hsp : searchParamsGet v "at" with
  | none => decide
  | some b =>
    show (if b = "" then "HEAD" else b) ≠ ""
    by_cases hbe : b = ""
    · rw [if_pos hbe]; decide
    · rw [if_neg hbe]; exact hbe

lemma bitbucketServerParse_branch_ne {url : String} {d : BitbucketServerUrlD}
    (h : bitbucketServerParse url = some d) : d.branch ≠ "" := by
  simp only [bitbucketServerParse] at h
  split at h
  · exact absurd h (by simp)
  · split at h
    · split at h
      · rw [Option.some.injEq] at h
        rw [← h]
        exact bbServerBranch_ne_empty _
      · rw [Option.some.injEq] at h
        rw [← h]
        exact bbServerBranch_ne_empty _
    · split at h
      · split at h
        · rw [Option.some.injEq] at h
          rw [← h]
          exact bbServerBranch_ne_empty _
        · exact absurd h (by simp)
      · split at h
        · split at h
          · rw [Option.some.injEq] at h
            rw [← h]
            exact bbServerBranch_ne_empty _
          · exact absurd h (by simp)
        · exact absurd h (by simp)

/-- C6: the Resolver maps the Bitbucket Server URL
`https://bb.example.com/projects/ACME/repos/app/browse?at=release` to a
Bitbucket Server descriptor whose raw location for `devfile.yaml` is
`https://bb.example.com/rest/api/1.0/projects/ACME/repos/app/raw/devfile.yaml?at=release`;
in general a parsed descriptor uses the `/projects/{project}/...` raw form
when the source URL carried a project owner and the `/users/{user}/...`
form when it carried a personal owner, with `?at={ref}` appended exactly
when the ref differs from the default `HEAD`. -/
theorem bitbucket_server_resolution :
    (urlParserServiceParse "https://bb.example.com/projects/ACME/repos/app/browse?at=release" =
      some (.bitbucketServer ⟨"https://bb.example.com", some "ACME", none, "app", "release"⟩)) ∧
    (BitbucketServerUrlD.rawFileLocation
        ⟨"https://bb.example.com", some "ACME", none, "app", "release"⟩ "devfile.yaml" =
      "https://bb.example.com/rest/api/1.0/projects/ACME/repos/app/raw/devfile.yaml?at=release") ∧
    (∀ url d f, bitbucketServerParse url = some d →
      (∀ p, d.project = some p → p ≠ "" →
        d.rawFileLocation f =
          d.serverUrl ++ "/rest/api/1.0/projects/" ++ encodeURIComponent p ++ "/repos/" ++
            encodeURIComponent d.repository ++ "/raw/" ++ f ++ bbAtSuffix d.branch) ∧
      (d.project = none → ∀ usr, d.user = some usr → usr ≠ "" →
        d.rawFileLocation f =
          d.serverUrl ++ "/rest/api/1.0/users/" ++ encodeURIComponent usr ++ "/repos/" ++
            encodeURIComponent d.repository ++ "/raw/" ++ f ++ bbAtSuffix d.branch) ∧
      (bbAtSuffix d.branch = "" ↔ d.branch = "HEAD")) := by
  refine ⟨by decide, by decide, ?_⟩
  intro url d f hparse
  refine ⟨?_, ?_, ?_⟩
  · intro p hp hpne
    have htruthy : optTruthy d.project = true := by
      rw [hp]
      simp [optTruthy, hpne]
    simp only [BitbucketServerUrlD.rawFileLocation, htruthy, if_true]
    rw [hp]
    rfl
  · intro hp husr hu hune
    have hfalsy : optTruthy d.project = false := by
      rw [hp]
      simp [optTruthy]
    have htruthy : optTruthy d.user = true := by
      rw [hu]
      simp [optTruthy, hune]
    simp only [BitbucketServerUrlD.rawFileLocation, hfalsy, htruthy, if_true, Bool.false_eq_true,
      if_false]
    rw [hu]
    rfl
  · have hbr := bitbucketServerParse_branch_ne hparse
    unfold bbAtSuffix
    by_cases hh : d.branch = "HEAD"
    · rw [if_neg (fun hc => hc.2 hh)]
      simp [hh]
    · rw [if_pos ⟨hbr, hh⟩]
      constructor
      · intro hc
        have hd := congrArg String.data hc
        rw [String.data_append] at hd
        exact absurd hd (by simp)
      · intro hc
        exact absurd hc hh

theorem bitbucket_server_resolution_witness :
    bitbucketServerParse "https://bb.example.com/projects/ACME/repos/app/browse?at=release" =
      some ⟨"https://bb.example.com", some "ACME", none, "app", "release"⟩ ∧
    (⟨"https://bb.example.com", some "ACME", none, "app", "release"⟩ :
        BitbucketServerUrlD).rawFileLocation "devfile.yaml" =
      "https://bb.example.com" ++ "/rest/api/1.0/projects/" ++ encodeURIComponent "ACME" ++
        "/repos/" ++ encodeURIComponent "app" ++ "/raw/" ++ "devfile.yaml" ++
        bbAtSuffix "release" :=
  ⟨by decide,
    (bitbucket_server_resolution.2.2
        "https://bb.example.com/projects/ACME/repos/app/browse?at=release"
        ⟨"https://bb.example.com", some "ACME", none, "app", "release"⟩
        "devfile.yaml" (by decide)).1 "ACME" rfl (by decide)⟩

/-- C7: `https://github.example.com/acme/repo/tree/dev/devfile.yaml` is
classified as a GitHub (Enterprise) descriptor with ref `dev` (not GitLab
or Bitbucket), and the SSH form `git@github.com:acme/repo.git` parses to
the same descriptor as `https://github.com/acme/repo`, with the `.git`
suffix stripped. -/
theorem github_classification_and_ssh_normalization :
    (urlParserServiceParse "https://github.example.com/acme/repo/tree/dev/devfile.yaml" =
      some (.github ⟨"https://github.example.com", "acme", "repo", "dev"⟩)) ∧
    (urlParserServiceParse "git@github.com:acme/repo.git" =
      urlParserServiceParse "https://github.com/acme/repo") ∧
    (urlParserServiceParse "git@github.com:acme/repo.git" =
      some (.github ⟨"https://github.com", "acme", "repo", "HEAD"⟩)) := by
  refine ⟨by decide, by decide, by decide⟩

/-- C10: provider classification is decided by substring containment over
the whole URL text: any parseable non-SSH URL whose text contains `github`
anywhere and whose path has at least two segments is classified as GitHub
with the server URL taken from that URL's host, the GitHub result
short-circuits the other parsers in `UrlParserService.parse`, and in
particular `https://gitlab.com/acme/github-tools` yields a GitHub
descriptor with server URL `https://gitlab.com`. -/
theorem github_substring_classification :
    (∀ s u, ("git@".data).isPrefixOf s.data = false → containsSub s "github" = true →
      parseUrl s = some u → 2 ≤ (pathSegments u).length →
      ∃ d, githubParse s = some d ∧ d.serverUrl = u.protocol ++ "//" ++ u.host) ∧
    (∀ s d, githubParse s = some d → urlParserServiceParse s = some (.github d)) ∧
    (urlParserServiceParse "https://gitlab.com/acme/github-tools" =
      some (.github ⟨"https://gitlab.com", "acme", "github-tools", "HEAD"⟩)) := by
  refine ⟨?_, ?_, by decide⟩
  · intro s u hgit hsub hparse hlen
    have hnorm : sshToHttps s = s := by
      unfold sshToHttps
      rw [hgit]
      simp
    have hcond : ¬(¬(containsSub s "github.com" = true) ∧ ¬(containsSub s "github" = true)) :=
      fun hcc => hcc.2 hsub
    have hlt : ¬((pathSegments u).length < 2) := not_lt.mpr hlen
    simp only [githubParse, hnorm, hparse, if_neg hcond, if_neg hlt]
    exact ⟨_, rfl, rfl⟩
  · intro s d h
    simp only [urlParserServiceParse, h]

theorem github_substring_classification_witness :
    ("git@".data).isPrefixOf ("https://gitlab.com/acme/github-tools".data) = false ∧
    containsSub "https://gitlab.com/acme/github-tools" "github" = true ∧
    parseUrl "https://gitlab.com/acme/github-tools" =
      some ⟨"https", "", "gitlab.com", "gitlab.com", "", "/acme/github-tools", ""⟩ ∧
    2 ≤ (pathSegments
          ⟨"https", "", "gitlab.com", "gitlab.com", "", "/acme/github-tools", ""⟩).length ∧
    (∃ d, githubParse "https://gitlab.com/acme/github-tools" = some d ∧
      d.serverUrl =
        SimpleUrl.protocol ⟨"https", "", "gitlab.com", "gitlab.com", "", "/acme/github-tools", ""⟩
          ++ "//" ++
          SimpleUrl.host ⟨"https", "", "gitlab.com", "gitlab.com", "", "/acme/github-tools", ""⟩) :=
  ⟨by decide, by decide, by decide, by decide,
    github_substring_classification.1 "https://gitlab.com/acme/github-tools"
      ⟨"https", "", "gitlab.com", "gitlab.com", "", "/acme/github-tools", ""⟩
      (by decide) (by decide) (by decide) (by decide)⟩

/-! Authorization-header computation (C8). -/

/-- C8: `computeAuthorizationHeader` fails with an
`OAuth1AuthenticationException` exactly when no access credential is
stored for the user; on success the header is `oauthHeader` — `OAuth `
followed by the comma-separated sorted `key="percentEncodedValue"` pairs —
over the six OAuth parameters (with `oauth_signature_method` fixed to
`RSA-SHA1`) plus the RSA-SHA1 signature of the base string, the keys in
lexicographic order; and the signature route surfaces the missing
credential as a 401. -/
theorem compute_authorization_header_spec (st : AuthenticatorState)
    (ck nonce ts : String) (rsaSign : String → String) (uid m url : String) :
    ((∃ msg, computeAuthorizationHeader st ck nonce ts rsaSign uid m url =
        .error (.authenticationError msg)) ↔
      assocGet st.credentialsByUserId uid = none) ∧
    (∀ h, computeAuthorizationHeader st ck nonce ts rsaSign uid m url = .ok h →
      ∃ creds baseString,
        assocGet st.credentialsByUserId uid = some creds ∧
        buildSignatureBaseString m url (oauth1BaseParams ck nonce ts creds.token) =
          some baseString ∧
        h = oauthHeader (oauth1BaseParams ck nonce ts creds.token ++
              [("oauth_signature", rsaSign baseString)]) ∧
        sortedKeys (oauth1BaseParams ck nonce ts creds.token ++
            [("oauth_signature", rsaSign baseString)]) =
          ["oauth_consumer_key", "oauth_nonce", "oauth_signature", "oauth_signature_method",
           "oauth_timestamp", "oauth_token", "oauth_version"]) ∧
    (assocGet st.credentialsByUserId uid = none →
      oauth1SignatureRoute st ck nonce ts rsaSign uid m url = (401, "Unauthorized")) := by
  refine ⟨?_, ?_, ?_⟩
  · cases hc : assocGet st.credentialsByUserId uid with
    | none =>
      simp only [computeAuthorizationHeader, hc]
      exact ⟨fun _ => trivial, fun _ => ⟨_, rfl⟩⟩
    | some creds =>
      simp only [computeAuthorizationHeader, hc]
      constructor
      · rintro ⟨msg, hmsg⟩
        cases hb : buildSignatureBaseString m url (oauth1BaseParams ck nonce ts creds.token) with
        | none =>
          rw [hb] at hmsg
          simp at hmsg
        | some bs =>
          rw [hb] at hmsg
          simp at hmsg
      · intro hnone
        exact absurd hnone (by simp)
  · intro h hok
    cases hc : assocGet st.credentialsByUserId uid with
    | none =>
      simp only [computeAuthorizationHeader, hc] at hok
      exact absurd hok (by simp)
    | some creds =>
      simp only [computeAuthorizationHeader, hc] at hok
      cases hb : buildSignatureBaseString m url (oauth1BaseParams ck nonce ts creds.token) with
      | none =>
        rw [hb] at hok
        simp at hok
      | some bs =>
        rw [hb] at hok
        simp only [Except.ok.injEq] at hok
        exact ⟨creds, bs, rfl, hb, hok.symm, rfl⟩
  · intro hnone
    simp only [oauth1SignatureRoute, computeAuthorizationHeader, hnone]

theorem compute_authorization_header_spec_witness :
    assocGet (⟨[], []⟩ : AuthenticatorState).credentialsByUserId "u" = none ∧
    oauth1SignatureRoute ⟨[], []⟩ "ck" "n" "1" (fun _ => "SIG") "u" "GET" "https://x.com/a" =
      (401, "Unauthorized") :=
  ⟨rfl,
    (compute_authorization_header_spec ⟨[], []⟩ "ck" "n" "1" (fun _ => "SIG") "u" "GET"
      "https://x.com/a").2.2 rfl⟩
